import Mathlib

/-!
Verification of the TRK 2-34 reader (`trk234`): a shallow embedding of the
framing indexer (`Reader.sfdu_index`), the record decoder dispatch
(`SFDU.decode`, `Reader.decode`), the record accessors (`SFDU.timestamp`,
`SFDU.tracking_mode`), the two stream aggregators (`Info.get_info`,
`Info.quicklook`) and the stream transforms (`trk234_regroup`,
`trk234_purify`), together with proofs and refutations of the stated
stream-level properties.

Buffers are modelled as `List Nat` with each entry one byte; Python's
`struct.unpack` reads become explicit bounded reads returning `Option`,
and code that can raise becomes `Except`-valued.
-/

namespace Trk234

/-- A raw byte buffer: one `Nat` per byte (values < 256 in well-formed data). -/
abbrev Bytes := List Nat

/-- Big-endian interpretation of a byte list (`struct.unpack('>Q', ...)` on
8 bytes, `'>B'` on one byte). -/
def bytesToNatBE (l : Bytes) : Nat := l.foldl (fun a b => a * 256 + b) 0

/-- Read an 8-byte unsigned big-endian integer at byte offset `off`;
`none` when fewer than 8 bytes are available (Python's
`struct.unpack('>Q', data[off:off+8])` raises `struct.error` there). -/
def readU64BE (data : Bytes) (off : Nat) : Option Nat :=
  let s := (data.drop off).take 8
  if s.length = 8 then some (bytesToNatBE s) else none

/-- The 8 big-endian bytes of `n` (for `n < 2^64`): the encoding a
well-formed record's length field carries. -/
def u64be (n : Nat) : Bytes :=
  [n / 256 ^ 7 % 256, n / 256 ^ 6 % 256, n / 256 ^ 5 % 256, n / 256 ^ 4 % 256,
   n / 256 ^ 3 % 256, n / 256 ^ 2 % 256, n / 256 % 256, n % 256]

/-- One step of the declared-length chain of `Reader.sfdu_index`: from
boundary `b`, read the 8-byte big-endian length field at `b+12..b+20` and
advance by that length plus the 20-byte header overhead
(`next_ind = sfdu_length + 20 + ind[-1]`). -/
def chainStep (data : Bytes) (b : Nat) : Option Nat :=
  (readU64BE data (b + 12)).map (fun L => L + 20 + b)

/-- The loop of `Reader.sfdu_index` (Reader.py lines 128-138), from current
boundary `cur` (the invariant of the Python loop is
`offset = next_ind = ind[-1]` at each test of `next_ind < N`): while
`cur < N`, unpack the length field at `cur+12..cur+20` (a short slice
raises `struct.error`, modelled by `Except.error`), compute the next
boundary and append it. Returns the boundaries appended after `cur`. -/
def sfduChain (data : Bytes) (cur : Nat) : Except Unit (List Nat) :=
  if _h : cur < data.length then
    match readU64BE data (cur + 12) with
    | none => .error ()
    | some L =>
      match sfduChain data (L + 20 + cur) with
      | .error e => .error e
      | .ok rest => .ok ((L + 20 + cur) :: rest)
  else
    .ok []
termination_by data.length - cur
decreasing_by omega

/-- `Reader.sfdu_index`: the full boundary list, starting at 0. -/
def sfdu_index (data : Bytes) : Except Unit (List Nat) :=
  (sfduChain data 0).map (fun l => 0 :: l)

/-- The boundary chain as the spec words it (§4.1): follows the spec's
words, for comparison with `sfdu_index`. `SpecChain data b l` holds when
`l` is the list of boundaries the spec's algorithm appends after boundary
`b`: stop as soon as the boundary reaches or exceeds the buffer length,
otherwise the next boundary is the current one plus the declared length
read at fixed offset 12..20 of the current record plus 20 bytes of header
overhead. -/
inductive SpecChain (data : Bytes) : Nat → List Nat → Prop
  | stop {b : Nat} : data.length ≤ b → SpecChain data b []
  | step {b nxt : Nat} {rest : List Nat} :
      b < data.length →
      chainStep data b = some nxt →
      SpecChain data nxt rest →
      SpecChain data b (nxt :: rest)

theorem sfduChain_spec (data : Bytes) :
    ∀ cur l, sfduChain data cur = .ok l → SpecChain data cur l := by
  have main : ∀ n cur l, data.length - cur ≤ n →
      sfduChain data cur = .ok l → SpecChain data cur l := by
    intro n
    induction n with
    | zero =>
      intro cur l hle hok
      rw [sfduChain] at hok
      rw [dif_neg (by omega)] at hok
      cases hok
      exact SpecChain.stop (by omega)
    | succ n ih =>
      intro cur l hle hok
      rw [sfduChain] at hok
      split at hok
      · rename_i hlt
        split at hok
        · cases hok
        · rename_i L hread
          split at hok
          · cases hok
          · rename_i rest hrec
            cases hok
            refine SpecChain.step hlt ?_ ?_
            · simp [chainStep, hread]
            · exact ih (L + 20 + cur) rest (by omega) hrec
      · rename_i hge
        cases hok
        exact SpecChain.stop (by omega)
  intro cur l h
  exact main (data.length - cur) cur l le_rfl h

theorem sfdu_index_spec (data : Bytes) (l : List Nat)
    (h : sfdu_index data = .ok l) : ∃ t, l = 0 :: t ∧ SpecChain data 0 t := by
  unfold sfdu_index at h
  cases hc : sfduChain data 0 with
  | error e => rw [hc] at h; cases h
  | ok t =>
    rw [hc] at h
    cases h
    exact ⟨t, rfl, sfduChain_spec data 0 t hc⟩

theorem u64be_length (n : Nat) : (u64be n).length = 8 := rfl

theorem bytesToNatBE_u64be (n : Nat) (h : n < 2 ^ 64) :
    bytesToNatBE (u64be n) = n := by
  simp only [bytesToNatBE, u64be, List.foldl]
  omega

/-- Reading the 8-byte length field that sits right after an arbitrary
prefix recovers the encoded value. -/
theorem readU64BE_append_exact (pre : Bytes) (L : Nat) (rest : Bytes)
    (hL : L < 2 ^ 64) :
    readU64BE (pre ++ (u64be L ++ rest)) pre.length = some L := by
  unfold readU64BE
  rw [List.drop_left, List.take_left' (u64be_length L)]
  rw [if_pos (u64be_length L), bytesToNatBE_u64be L hL]

/-- One unfolding of the indexer loop when the length read succeeds. -/
theorem sfduChain_cons {data : Bytes} {cur L nxt : Nat}
    (hlt : cur < data.length) (hread : readU64BE data (cur + 12) = some L)
    (hnxt : nxt = L + 20 + cur) :
    sfduChain data cur = (sfduChain data nxt).map (fun l => nxt :: l) := by
  subst hnxt
  rw [sfduChain, dif_pos hlt, hread]
  cases h : sfduChain data (L + 20 + cur) <;> simp [h, Except.map]

/-- The indexer loop stops once the boundary reaches the buffer length. -/
theorem sfduChain_stop {data : Bytes} {cur : Nat} (h : data.length ≤ cur) :
    sfduChain data cur = .ok [] := by
  rw [sfduChain, dif_neg (by omega)]

/-- A well-formed record: a 12-byte header prefix, the 8-byte big-endian
declared length, and a payload of exactly the declared length. -/
def mkRecord (hdr : Bytes) (L : Nat) (payload : Bytes) : Bytes :=
  hdr ++ u64be L ++ payload

/-- C1: the framing indexer produces the boundary list defined by the
declared-length chain (first boundary 0, each next boundary the current
one plus the 8-byte big-endian length at offset 12..20 of the current
record plus 20, until the boundary reaches or exceeds the buffer length);
in particular a 3-record stream with declared lengths `L1, L2, L3` yields
boundaries `[0, L1+20, L1+L2+40, L1+L2+L3+60]`. -/
theorem framing_indexer_correct :
    (∀ (data : Bytes) (l : List Nat), sfdu_index data = .ok l →
        ∃ t, l = 0 :: t ∧ SpecChain data 0 t) ∧
    (∀ (h1 h2 h3 p1 p2 p3 : Bytes) (L1 L2 L3 : Nat),
        h1.length = 12 → h2.length = 12 → h3.length = 12 →
        p1.length = L1 → p2.length = L2 → p3.length = L3 →
        L1 < 2 ^ 64 → L2 < 2 ^ 64 → L3 < 2 ^ 64 →
        sfdu_index (mkRecord h1 L1 p1 ++ mkRecord h2 L2 p2 ++ mkRecord h3 L3 p3)
          = .ok [0, L1 + 20, L1 + L2 + 40, L1 + L2 + L3 + 60]) := by
  constructor
  · exact sfdu_index_spec
  · intro h1 h2 h3 p1 p2 p3 L1 L2 L3 hh1 hh2 hh3 hp1 hp2 hp3 hL1 hL2 hL3
    set B := mkRecord h1 L1 p1 ++ mkRecord h2 L2 p2 ++ mkRecord h3 L3 p3 with hB
    have hlen : B.length = L1 + L2 + L3 + 60 := by
      simp [hB, mkRecord, u64be_length, hh1, hh2, hh3, hp1, hp2, hp3]
      omega
    have read1 : readU64BE B 12 = some L1 := by
      have hshape : B = h1 ++ (u64be L1 ++ (p1 ++ (mkRecord h2 L2 p2 ++ mkRecord h3 L3 p3))) := by
        simp [hB, mkRecord, List.append_assoc]
      rw [hshape, show 12 = h1.length from hh1.symm]
      exact readU64BE_append_exact _ _ _ hL1
    have read2 : readU64BE B (L1 + 32) = some L2 := by
      have hshape : B = (h1 ++ u64be L1 ++ p1 ++ h2) ++ (u64be L2 ++ (p2 ++ mkRecord h3 L3 p3)) := by
        simp [hB, mkRecord, List.append_assoc]
      have hpre : (h1 ++ u64be L1 ++ p1 ++ h2).length = L1 + 32 := by
        simp [u64be_length, hh1, hh2, hp1]
        omega
      rw [hshape, ← hpre]
      exact readU64BE_append_exact _ _ _ hL2
    have read3 : readU64BE B (L1 + L2 + 52) = some L3 := by
      have hshape : B = (h1 ++ u64be L1 ++ p1 ++ (h2 ++ u64be L2 ++ p2) ++ h3)
          ++ (u64be L3 ++ p3) := by
        simp [hB, mkRecord, List.append_assoc]
      have hpre : (h1 ++ u64be L1 ++ p1 ++ (h2 ++ u64be L2 ++ p2) ++ h3).length
          = L1 + L2 + 52 := by
        simp [u64be_length, hh1, hh2, hh3, hp1, hp2]
        omega
      rw [hshape, ← hpre]
      exact readU64BE_append_exact _ _ _ hL3
    have step1 : sfduChain B 0 = (sfduChain B (L1 + 20)).map (fun l => (L1 + 20) :: l) :=
      sfduChain_cons (by omega) (by simpa using read1) (by omega)
    have step2 : sfduChain B (L1 + 20)
        = (sfduChain B (L1 + L2 + 40)).map (fun l => (L1 + L2 + 40) :: l) :=
      sfduChain_cons (by omega) (by rw [show L1 + 20 + 12 = L1 + 32 by omega]; exact read2)
        (by omega)
    have step3 : sfduChain B (L1 + L2 + 40)
        = (sfduChain B (L1 + L2 + L3 + 60)).map (fun l => (L1 + L2 + L3 + 60) :: l) :=
      sfduChain_cons (by omega)
        (by rw [show L1 + L2 + 40 + 12 = L1 + L2 + 52 by omega]; exact read3) (by omega)
    have stop : sfduChain B (L1 + L2 + L3 + 60) = .ok [] := sfduChain_stop (by omega)
    rw [sfdu_index, step1, step2, step3, stop]
    rfl

/-- Witness: a concrete 3-record stream (each record with declared length 1)
is indexed at boundaries `[0, 21, 42, 63]`. -/
theorem framing_indexer_correct_witness :
    sfdu_index (mkRecord (List.replicate 12 0) 1 [7] ++ mkRecord (List.replicate 12 0) 1 [7]
        ++ mkRecord (List.replicate 12 0) 1 [7]) = .ok [0, 21, 42, 63] := by
  have := framing_indexer_correct.2 (List.replicate 12 0) (List.replicate 12 0)
    (List.replicate 12 0) [7] [7] [7] 1 1 1 (by decide) (by decide) (by decide)
    (by decide) (by decide) (by decide) (by decide) (by decide) (by decide)
  simpa using this

/-- A 21-byte buffer: one record header whose length field declares 5
payload bytes, but only 1 payload byte is present — a truncated stream. -/
def truncBuf21 : Bytes := List.replicate 12 0 ++ u64be 5 ++ [9]

/-- C3 (failing input): on the truncated buffer `truncBuf21` (length 21,
declared record end 25) the indexer succeeds with a final boundary `25`
past the end of the buffer instead of failing with a framing error: the
truncated record is silently clipped by downstream slicing. -/
theorem framing_truncated_not_rejected :
    sfdu_index truncBuf21 = .ok [0, 25] ∧ truncBuf21.length = 21 := by
  have hlen : truncBuf21.length = 21 := by decide
  have read1 : readU64BE truncBuf21 12 = some 5 := by decide
  have step1 : sfduChain truncBuf21 0 = (sfduChain truncBuf21 25).map (fun l => 25 :: l) :=
    sfduChain_cons (by omega) (by simpa using read1) (by omega)
  have stop : sfduChain truncBuf21 25 = .ok [] := sfduChain_stop (by omega)
  refine ⟨?_, hlen⟩
  rw [sfdu_index, step1, stop]
  rfl

/-- `SFDULabel` (from `components`, consumed by `SFDU.py`): only the field
the claims touch, the 4-character data-description code. -/
structure SFDULabel where
  data_description_id : String
deriving DecidableEq

/-- `PrimaryCHDO`: only the numeric format code. -/
structure PrimaryCHDO where
  format_code : Nat
deriving DecidableEq

/-- Modelled from the spec: the secondary CHDO variant layouts
(`components.UplinkCHDO` … `FilteredCHDO`) are not under `src`; per the
spec (§3, §4.3) each variant carries UTC time components, station ids,
bands, spacecraft id and the tracking-mode code, with field presence
differing per variant. Variant-dependent fields are `Option`-valued
(mirroring the source's `hasattr` checks); the fields always accessed
directly are plain. -/
structure SecCHDO where
  year : Nat
  doy : Nat
  sec : Nat
  scft_id : Nat
  prdx_mode : Nat
  ul_prdx_stn : Nat
  cnt_time : Nat
  ul_dss_id : Option Nat := none
  dl_dss_id : Option Nat := none
  ul_band : Option Nat := none
  dl_band : Option Nat := none
deriving DecidableEq

/-- One record (`SFDU.py`): sequence number, decoded sub-structures, the
decoded flag and the record's raw byte range. `trk_chdo` is represented by
the tracking-variant tag selected by the format code. -/
structure SFDU where
  number : Nat := 0
  label : SFDULabel
  pri_chdo : PrimaryCHDO
  sec_chdo : Option SecCHDO := none
  trk_chdo : Option Nat := none
  is_decoded : Bool := false
  binarydata : Bytes := []
deriving DecidableEq

/-- Absolute time of CPython's proleptic-Gregorian `datetime(year, 1, 1)`,
in seconds from the fixed origin (year 1, January 1, midnight):
`_days_before_year(year) * 86400`. -/
def daysBeforeYear (y : Nat) : Nat :=
  365 * (y - 1) + (y - 1) / 4 - (y - 1) / 100 + (y - 1) / 400

def datetimeYearStart (year : Nat) : Int := (daysBeforeYear year : Int) * 86400

/-- `timedelta(days=d, seconds=s)` as a second count. -/
def timedeltaSecs (days seconds : Int) : Int := days * 86400 + seconds

/-- `SFDU.timestamp`: `datetime(year=self.sec_chdo.year, month=1, day=1) +
timedelta(days=self.sec_chdo.doy - 1, seconds=self.sec_chdo.sec)`.
Accessing `self.sec_chdo` fields when the secondary stage never ran
(`sec_chdo is None`) raises in Python, modelled by `Except.error`. -/
def SFDU.timestamp (s : SFDU) : Except String Int :=
  match s.sec_chdo with
  | none => .error "AttributeError: secondary CHDO stage was not decoded"
  | some c => .ok (datetimeYearStart c.year
      + timedeltaSecs ((c.doy : Int) - 1) (c.sec : Int))

/-- `SFDU.tracking_mode` (SFDU.py lines 105-119): for non-Uplink records
map the 0..4 mode code to its label (an out-of-range code falls off the
if-chain and Python returns `None`); Uplink (`C123`) records get `N/A`. -/
def SFDU.tracking_mode (s : SFDU) : Except String (Option String) :=
  if s.label.data_description_id ≠ "C123" then
    match s.sec_chdo with
    | none => .error "AttributeError: secondary CHDO stage was not decoded"
    | some c =>
      if c.prdx_mode = 4 then .ok (some "Invalid")
      else if c.prdx_mode = 3 then .ok (some ("3W/" ++ toString c.ul_prdx_stn))
      else if c.prdx_mode = 2 then .ok (some "2W")
      else if c.prdx_mode = 1 then .ok (some "1W")
      else if c.prdx_mode = 0 then .ok (some "None")
      else .ok none
  else .ok (some "N/A")

/-- C8: with a secondary header present, `timestamp` is (year, January 1)
plus (day-of-year − 1) days plus seconds-of-day; with the secondary stage
skipped or failed it fails instead of returning a value. -/
theorem timestamp_correct (s : SFDU) (c : SecCHDO) :
    (s.sec_chdo = some c →
      s.timestamp = .ok (datetimeYearStart c.year
        + timedeltaSecs ((c.doy : Int) - 1) (c.sec : Int))) ∧
    (s.sec_chdo = none → ∃ e, s.timestamp = .error e) := by
  constructor
  · intro h
    simp [SFDU.timestamp, h]
  · intro h
    refine ⟨"AttributeError: secondary CHDO stage was not decoded", ?_⟩
    simp [SFDU.timestamp, h]

/-- Witness for C8 at concrete records: year 2000, day-of-year 2,
second 3 decodes to the expected absolute second count, and a record
without a secondary header fails. -/
theorem timestamp_correct_witness :
    ({ label := ⟨"C124"⟩, pri_chdo := ⟨1⟩,
       sec_chdo := some { year := 2000, doy := 2, sec := 3, scft_id := 0,
                          prdx_mode := 0, ul_prdx_stn := 0, cnt_time := 0 } } : SFDU).timestamp
      = .ok 63082368003 ∧
    ∃ e, ({ label := ⟨"C124"⟩, pri_chdo := ⟨1⟩ } : SFDU).timestamp = .error e := by
  constructor
  · have h := (timestamp_correct
      { label := ⟨"C124"⟩, pri_chdo := ⟨1⟩,
        sec_chdo := some { year := 2000, doy := 2, sec := 3, scft_id := 0,
                           prdx_mode := 0, ul_prdx_stn := 0, cnt_time := 0 } }
      { year := 2000, doy := 2, sec := 3, scft_id := 0,
        prdx_mode := 0, ul_prdx_stn := 0, cnt_time := 0 }).1 rfl
    rw [h]
    rfl
  · exact (timestamp_correct { label := ⟨"C124"⟩, pri_chdo := ⟨1⟩ }
      { year := 0, doy := 0, sec := 0, scft_id := 0, prdx_mode := 0,
        ul_prdx_stn := 0, cnt_time := 0 }).2 rfl

/-- The tracking-mode label mapping as the claim words it. -/
def specModeLabel (mode stn : Nat) : String :=
  if mode = 0 then "None"
  else if mode = 1 then "1W"
  else if mode = 2 then "2W"
  else if mode = 3 then "3W/" ++ toString stn
  else "Invalid"

/-- C9: for non-Uplink records with mode code 0..4, `tracking_mode`
returns exactly the mapped label (mode 3 carrying the uplink station
number); Uplink records get the fixed `N/A` marker. -/
theorem tracking_mode_correct (s : SFDU) (c : SecCHDO) :
    (s.label.data_description_id = "C123" → s.tracking_mode = .ok (some "N/A")) ∧
    (s.label.data_description_id ≠ "C123" → s.sec_chdo = some c → c.prdx_mode ≤ 4 →
      s.tracking_mode = .ok (some (specModeLabel c.prdx_mode c.ul_prdx_stn))) := by
  constructor
  · intro h
    simp [SFDU.tracking_mode, h]
  · intro h hsec hm
    unfold SFDU.tracking_mode
    rw [if_pos h, hsec]
    rcases (by omega : c.prdx_mode = 0 ∨ c.prdx_mode = 1 ∨ c.prdx_mode = 2 ∨
        c.prdx_mode = 3 ∨ c.prdx_mode = 4) with h0 | h0 | h0 | h0 | h0 <;>
      simp [specModeLabel, h0]

/-- Witness for C9: a Downlink record in three-way mode with uplink
station 55 is labelled `3W/55`; an Uplink record is labelled `N/A`. -/
theorem tracking_mode_correct_witness :
    ({ label := ⟨"C124"⟩, pri_chdo := ⟨1⟩,
       sec_chdo := some { year := 0, doy := 0, sec := 0, scft_id := 0,
                          prdx_mode := 3, ul_prdx_stn := 55, cnt_time := 0 } } : SFDU).tracking_mode
      = .ok (some "3W/55") ∧
    ({ label := ⟨"C123"⟩, pri_chdo := ⟨0⟩ } : SFDU).tracking_mode = .ok (some "N/A") := by
  constructor
  · have h := (tracking_mode_correct
      { label := ⟨"C124"⟩, pri_chdo := ⟨1⟩,
        sec_chdo := some { year := 0, doy := 0, sec := 0, scft_id := 0,
                           prdx_mode := 3, ul_prdx_stn := 55, cnt_time := 0 } }
      { year := 0, doy := 0, sec := 0, scft_id := 0,
        prdx_mode := 3, ul_prdx_stn := 55, cnt_time := 0 }).2 (by decide) rfl (by decide)
    rw [h]
    rfl
  · exact (tracking_mode_correct { label := ⟨"C123"⟩, pri_chdo := ⟨0⟩ }
      { year := 0, doy := 0, sec := 0, scft_id := 0, prdx_mode := 0,
        ul_prdx_stn := 0, cnt_time := 0 }).1 rfl

/-- Keys of `util.data_descriptions`: the 5 known data-description codes. -/
def ddKeys : List String := ["C123", "C124", "C125", "C126", "C127"]

/-- Keys of `util.format_codes`: the 18 known format codes 0..17. -/
def fcKeys : List Nat := List.range 18

/-- `util.types`: for `i` in `range(0, 18)`, the number of records whose
primary header carries format code `i`. -/
def types (sfdus : List SFDU) : List Nat :=
  (List.range 18).map (fun i => (sfdus.filter (fun s => s.pri_chdo.format_code == i)).length)

/-- An `Except`-propagating map, modelling a Python list comprehension in
which each element's computation may raise: evaluation stops at the first
raise. -/
def mapExc (f : α → Except String β) : List α → Except String (List β)
  | [] => .ok []
  | a :: l =>
    match f a with
    | .error e => .error e
    | .ok b =>
      match mapExc f l with
      | .error e => .error e
      | .ok bs => .ok (b :: bs)

theorem mapExc_error_of_mem {f : α → Except String β} :
    ∀ {l : List α} {a : α} {e : String}, a ∈ l → f a = .error e →
      ∃ e2, mapExc f l = .error e2 := by
  intro l
  induction l with
  | nil => intro a e h; cases h
  | cons b t ih =>
    intro a e hmem herr
    rcases List.mem_cons.mp hmem with rfl | ht
    · exact ⟨e, by rw [mapExc, herr]⟩
    · cases hb : f b with
      | error eb => exact ⟨eb, by rw [mapExc, hb]⟩
      | ok vb =>
        obtain ⟨e2, h2⟩ := ih ht herr
        exact ⟨e2, by rw [mapExc, hb, h2]⟩

/-- `Info.get_info` lines 166-168: timestamps of the decoded records,
then `min`/`max` (Python `min`/`max` raise on an empty sequence). -/
def getInfoStartEnd (sfdus : List SFDU) : Except String (Int × Int) := do
  let dt ← mapExc SFDU.timestamp (sfdus.filter (fun s => s.is_decoded))
  match dt.min?, dt.max? with
  | some a, some b => .ok (a, b)
  | _, _ => .error "ValueError: min() arg is an empty sequence"

/-- The `x.sec_chdo.cnt_time` read of `Info.get_info` line 222: performed
without checking the record's decoded flag, it raises when the secondary
stage never ran. -/
def cntTimeOf (s : SFDU) : Except String Nat :=
  match s.sec_chdo with
  | none => .error ("AttributeError: SFDU " ++ toString s.number ++ " has no secondary CHDO")
  | some c => .ok c.cnt_time

/-- `Info.get_info` line 222: the distinct `sec_chdo.cnt_time` values of
the format-code-16 records. -/
def getInfoDopplerCountTime (sfdus : List SFDU) : Except String (List Nat) :=
  (mapExc cntTimeOf (sfdus.filter (fun s => s.pri_chdo.format_code == 16))).map List.dedup

/-- The summary fields the claims compare (the full `Info` object also
collects station/band/mode/id sets, not needed by any claim here). -/
structure Summary where
  numRecords : Nat
  numberDataTypes : List Nat
  startTime : Int
  endTime : Int
  dopplerCountTime : List Nat := []
deriving DecidableEq

/-- `Info.get_info` (the Full aggregator), restricted to the compared
fields: record count, per-format-code counts, min/max timestamp over the
decoded records, Doppler count times of format-code-16 records. -/
def get_info (sfdus : List SFDU) : Except String Summary := do
  let se ← getInfoStartEnd sfdus
  let dct ← getInfoDopplerCountTime sfdus
  .ok { numRecords := sfdus.length, numberDataTypes := types sfdus,
        startTime := se.1, endTime := se.2, dopplerCountTime := dct }

/-- `Reader.get_data_types`: one fixed-offset byte read per frame at
offset 31, which is the primary header's format code (the header layout
itself is in the absent `components` module; Reader.py line 149 names the
offset) — at the record level, the format code of each record in order. -/
def get_data_types (sfdus : List SFDU) : List Nat :=
  sfdus.map (fun s => s.pri_chdo.format_code)

/-- `Info.quicklook` count loop: per-format-code counts 0..17 over the
raw format-code list. -/
def quickCounts (fcs : List Nat) : List Nat :=
  (List.range 18).map (fun i => (fcs.filter (fun s => s == i)).length)

/-- `Info.quicklook` timestamp step: decode the first and the last frame
and take their timestamps (start, end); an empty stream has no
`f.index[1]` and raises. -/
def quicklookStartEnd (sfdus : List SFDU) : Except String (Int × Int) :=
  match sfdus.head?, sfdus.getLast? with
  | some first, some last => do
    let st ← first.timestamp
    let en ← last.timestamp
    .ok (st, en)
  | _, _ => .error "IndexError: list index out of range"

/-- `Info.quicklook` (the Fast-path aggregator), restricted to the
compared fields. -/
def quicklook (sfdus : List SFDU) : Except String Summary := do
  let se ← quicklookStartEnd sfdus
  .ok { numRecords := sfdus.length,
        numberDataTypes := quickCounts (get_data_types sfdus),
        startTime := se.1, endTime := se.2 }

/-- C10: a stream containing a record whose primary header carries format
code 16 but whose secondary stage was not decoded makes the Full
aggregator fail while collecting the Doppler-count-time set (the
`cnt_time` read does not check the decoded flag), so the stream is not
summarizable by the Full path. -/
theorem get_info_fails_on_undecoded_fc16 (sfdus : List SFDU) (s : SFDU)
    (hmem : s ∈ sfdus) (hfc : s.pri_chdo.format_code = 16)
    (hsec : s.sec_chdo = none) :
    (∃ e, getInfoDopplerCountTime sfdus = .error e) ∧
    (∃ e, get_info sfdus = .error e) := by
  have hmemf : s ∈ sfdus.filter (fun x => x.pri_chdo.format_code == 16) := by
    rw [List.mem_filter]
    exact ⟨hmem, by simp [hfc]⟩
  have herr : cntTimeOf s
      = .error ("AttributeError: SFDU " ++ toString s.number ++ " has no secondary CHDO") := by
    simp [cntTimeOf, hsec]
  obtain ⟨e2, h2⟩ := mapExc_error_of_mem hmemf herr
  have hdop : getInfoDopplerCountTime sfdus = .error e2 := by
    simp [getInfoDopplerCountTime, h2, Except.map]
  refine ⟨⟨e2, hdop⟩, ?_⟩
  cases hse : getInfoStartEnd sfdus with
  | error e1 => exact ⟨e1, by rw [get_info, hse]; rfl⟩
  | ok se =>
    refine ⟨e2, ?_⟩
    rw [get_info, hse, show ∀ g : Int × Int → Except String Summary,
      (Except.ok se >>= g) = g se from fun g => rfl]
    rw [show ∀ g : List Nat → Except String Summary,
      (getInfoDopplerCountTime sfdus >>= g) = (Except.error e2 >>= g) from fun g => by rw [hdop]]
    rfl

/-- Witness for C10: the one-record stream whose single record has format
code 16 and no secondary header is rejected by the Full aggregator. -/
theorem get_info_fails_on_undecoded_fc16_witness :
    (∃ e, getInfoDopplerCountTime [{ label := ⟨"XXXX"⟩, pri_chdo := ⟨16⟩ }] = .error e) ∧
    (∃ e, get_info [{ label := ⟨"XXXX"⟩, pri_chdo := ⟨16⟩ }] = .error e) :=
  get_info_fails_on_undecoded_fc16 [{ label := ⟨"XXXX"⟩, pri_chdo := ⟨16⟩ }]
    { label := ⟨"XXXX"⟩, pri_chdo := ⟨16⟩ } (List.mem_singleton.mpr rfl) rfl rfl

theorem foldl_min_of_le {l : List Int} {a : Int} (h : ∀ x ∈ l, a ≤ x) :
    l.foldl min a = a := by
  induction l generalizing a with
  | nil => rfl
  | cons b t ih =>
    have hab : a ≤ b := h b (List.mem_cons_self b t)
    rw [List.foldl_cons, min_eq_left hab]
    exact ih (fun x hx => h x (List.mem_cons_of_mem b hx))

theorem min?_eq_head_of_sorted {l : List Int} (hs : List.Sorted (· ≤ ·) l) :
    l.min? = l.head? := by
  cases l with
  | nil => rfl
  | cons a t =>
    rw [List.sorted_cons] at hs
    have h1 : (a :: t).min? = some (t.foldl min a) := rfl
    rw [h1, foldl_min_of_le hs.1, List.head?_cons]

theorem max?_eq_getLast_of_sorted : ∀ {l : List Int},
    List.Sorted (· ≤ ·) l → l.max? = l.getLast? := by
  intro l
  induction l with
  | nil => intro _; rfl
  | cons a t ih =>
    intro hs
    cases t with
    | nil => rfl
    | cons b t2 =>
      rw [List.sorted_cons] at hs
      have hab : a ≤ b := hs.1 b (List.mem_cons_self b t2)
      have h1 : (a :: b :: t2).max? = some (t2.foldl max (max a b)) := rfl
      have h2 : (b :: t2).max? = some (t2.foldl max b) := rfl
      rw [h1, max_eq_right hab, ← h2, ih hs.2, List.getLast?_cons_cons]

theorem mapExc_cons_ok {f : α → Except String β} {a : α} {l : List α} {ts : List β}
    (h : mapExc f (a :: l) = .ok ts) :
    ∃ b ts2, f a = .ok b ∧ mapExc f l = .ok ts2 ∧ ts = b :: ts2 := by
  rw [mapExc] at h
  split at h
  · cases h
  · rename_i b hb
    split at h
    · cases h
    · rename_i ts2 h2
      cases h
      exact ⟨b, ts2, hb, h2, rfl⟩

theorem mapExc_ok_getLast {f : α → Except String β} :
    ∀ {l : List α} {ts : List β} {la : α},
      mapExc f l = .ok ts → l.getLast? = some la →
      ∃ lb, ts.getLast? = some lb ∧ f la = .ok lb := by
  intro l
  induction l with
  | nil => intro ts la _ hlast; cases hlast
  | cons a t ih =>
    intro ts la h hlast
    obtain ⟨b, ts2, hb, h2, rfl⟩ := mapExc_cons_ok h
    cases t with
    | nil =>
      rw [mapExc] at h2
      cases h2
      rw [List.getLast?_singleton] at hlast
      cases hlast
      exact ⟨b, rfl, hb⟩
    | cons c t2 =>
      rw [List.getLast?_cons_cons] at hlast
      obtain ⟨lb, hts2, hfla⟩ := ih h2 hlast
      refine ⟨lb, ?_, hfla⟩
      cases ts2 with
      | nil => cases hts2
      | cons x xs => rw [List.getLast?_cons_cons]; exact hts2

/-- The per-format-code counts of the Full and the Fast path coincide:
both count, for each code 0..17, the records carrying that code. -/
theorem quickCounts_eq_types (sfdus : List SFDU) :
    quickCounts (get_data_types sfdus) = types sfdus := by
  unfold quickCounts get_data_types types
  refine List.map_congr_left (fun i _ => ?_)
  rw [List.filter_map, List.length_map]
  rfl

/-- Two decoded records in reverse time order: the later record first. -/
def rLate : SFDU :=
  { label := ⟨"C124"⟩, pri_chdo := ⟨1⟩, is_decoded := true,
    sec_chdo := some { year := 1, doy := 2, sec := 0, scft_id := 0,
                       prdx_mode := 0, ul_prdx_stn := 0, cnt_time := 0 } }

def rEarly : SFDU :=
  { label := ⟨"C124"⟩, pri_chdo := ⟨1⟩, is_decoded := true,
    sec_chdo := some { year := 1, doy := 1, sec := 0, scft_id := 0,
                       prdx_mode := 0, ul_prdx_stn := 0, cnt_time := 0 } }

/-- C2 (counterexample): on the 2-record stream whose first record is one
day later than its last, the Full path reports start time `0` (the
stream-wide minimum) while the Fast path reports start time `86400` (the
first record): the two aggregators do not return identical start/end
timestamps on every stream. -/
theorem aggregators_disagree_on_unsorted_stream :
    getInfoStartEnd [rLate, rEarly] = .ok (0, 86400) ∧
    quicklookStartEnd [rLate, rEarly] = .ok (86400, 0) ∧
    (0 : Int) ≠ 86400 := by
  refine ⟨rfl, rfl, by decide⟩

/-- C2 (amended): the Full and Fast-path aggregators agree on the total
record count and the per-format-code counts for every stream; they agree
on the start and end timestamps when every record is decoded and the
record timestamps are in non-decreasing order (so that the first record
attains the minimum and the last the maximum) — on out-of-order streams
the Fast path reports the first/last record timestamps, which need not be
the stream-wide min/max. -/
theorem aggregators_cross_consistent (sfdus : List SFDU) (ts : List Int)
    (hne : sfdus ≠ [])
    (hdec : ∀ s ∈ sfdus, s.is_decoded = true)
    (hts : mapExc SFDU.timestamp sfdus = .ok ts)
    (hsort : List.Sorted (· ≤ ·) ts) :
    quickCounts (get_data_types sfdus) = types sfdus ∧
    (∃ st en, getInfoStartEnd sfdus = .ok (st, en) ∧
      quicklookStartEnd sfdus = .ok (st, en)) := by
  refine ⟨quickCounts_eq_types sfdus, ?_⟩
  have hfilter : sfdus.filter (fun s => s.is_decoded) = sfdus :=
    List.filter_eq_self.mpr hdec
  cases sfdus with
  | nil => exact absurd rfl hne
  | cons a rest =>
    obtain ⟨b, ts2, hb, h2, rfl⟩ := mapExc_cons_ok hts
    have hlast : ∃ la, (a :: rest).getLast? = some la := by
      cases hl : (a :: rest).getLast? with
      | none => exact absurd (List.getLast?_eq_none_iff.mp hl) (by simp)
      | some la => exact ⟨la, rfl⟩
    obtain ⟨la, hla⟩ := hlast
    obtain ⟨lb, htslast, hfla⟩ := mapExc_ok_getLast hts hla
    refine ⟨b, lb, ?_, ?_⟩
    · rw [getInfoStartEnd, hfilter, hts,
        show ∀ g : List Int → Except String (Int × Int),
          (Except.ok (b :: ts2) >>= g) = g (b :: ts2) from fun g => rfl]
      rw [min?_eq_head_of_sorted hsort, max?_eq_getLast_of_sorted hsort,
        List.head?_cons, htslast]
    · rw [quicklookStartEnd, List.head?_cons, hla]
      show (do
        let st ← a.timestamp
        let en ← la.timestamp
        Except.ok (st, en)) = Except.ok (b, lb)
      rw [hb, show ∀ g : Int → Except String (Int × Int),
        (Except.ok b >>= g) = g b from fun g => rfl, hfla]
      rfl

/-- Witness for C2 (amended) on the time-ordered 2-record stream
`[rEarly, rLate]`: both aggregators report start `0` and end `86400`, and
the count vectors agree. -/
theorem aggregators_cross_consistent_witness :
    quickCounts (get_data_types [rEarly, rLate]) = types [rEarly, rLate] ∧
    (∃ st en, getInfoStartEnd [rEarly, rLate] = .ok (st, en) ∧
      quicklookStartEnd [rEarly, rLate] = .ok (st, en)) :=
  aggregators_cross_consistent [rEarly, rLate] [0, 86400] (by simp)
    (by intro s hs; rcases List.mem_cons.mp hs with rfl | hs2
        · rfl
        · rcases List.mem_cons.mp hs2 with rfl | h3
          · rfl
          · cases h3)
    rfl (by decide)

/-- The record sequence written by `trk234_regroup` (lines 100-113): for
each format code `i` in `range(0, 18)` in ascending order, the records
whose primary header carries code `i`, in input order. -/
def regroup (sfdus : List SFDU) : List SFDU :=
  (List.range 18).flatMap (fun i => sfdus.filter (fun s => s.pri_chdo.format_code == i))

/-- The bytes `trk234_regroup` writes: each grouped record's original
byte range, concatenated. -/
def regroupOutput (sfdus : List SFDU) : Bytes :=
  (regroup sfdus).flatMap (fun s => s.binarydata)

theorem sorted_of_all_eq {l : List Nat} {v : Nat} (h : ∀ x ∈ l, x = v) :
    List.Sorted (· ≤ ·) l := by
  induction l with
  | nil => exact List.sorted_nil
  | cons a t ih =>
    rw [List.sorted_cons]
    refine ⟨fun b hb => ?_, ih (fun x hx => h x (List.mem_cons_of_mem a hx))⟩
    rw [h a (List.mem_cons_self a t), h b (List.mem_cons_of_mem a hb)]

theorem regroup_fc_sorted_aux (sfdus : List SFDU) :
    ∀ (n lo : Nat),
      List.Sorted (· ≤ ·) (((List.range' lo n).flatMap
        (fun i => sfdus.filter (fun s => s.pri_chdo.format_code == i))).map
          (fun s => s.pri_chdo.format_code)) := by
  intro n
  induction n with
  | zero => intro lo; exact List.sorted_nil
  | succ n ih =>
    intro lo
    rw [List.range'_succ, List.flatMap_cons, List.map_append, List.Sorted,
      List.pairwise_append]
    refine ⟨?_, ih (lo + 1), ?_⟩
    · apply sorted_of_all_eq (v := lo)
      intro x hx
      obtain ⟨s, hs, rfl⟩ := List.mem_map.mp hx
      simpa using (List.mem_filter.mp hs).2
    · intro x hx y hy
      obtain ⟨s, hs, rfl⟩ := List.mem_map.mp hx
      have hxlo : s.pri_chdo.format_code = lo := by
        simpa using (List.mem_filter.mp hs).2
      obtain ⟨s2, hs2, rfl⟩ := List.mem_map.mp hy
      obtain ⟨i, hi, hmem⟩ := List.mem_flatMap.mp hs2
      have hyi : s2.pri_chdo.format_code = i := by
        simpa using (List.mem_filter.mp hmem).2
      have := List.mem_range'_1.mp hi
      omega

theorem filter_buckets_nil {i : Nat} (sfdus : List SFDU) :
    ∀ {ks : List Nat}, i ∉ ks →
    (ks.flatMap (fun j => sfdus.filter (fun s => s.pri_chdo.format_code == j))).filter
        (fun s => s.pri_chdo.format_code == i) = [] := by
  intro ks
  induction ks with
  | nil => intro _; rfl
  | cons k t ih =>
    intro hnot
    rw [List.flatMap_cons, List.filter_append, List.filter_filter,
      ih (fun h => hnot (List.mem_cons_of_mem k h)), List.append_nil]
    apply List.filter_eq_nil_iff.mpr
    intro a _ hcontra
    have h1 : a.pri_chdo.format_code = i := by simpa using (Bool.and_elim_left hcontra)
    have h2 : a.pri_chdo.format_code = k := by simpa using (Bool.and_elim_right hcontra)
    exact hnot (by rw [← h1, h2]; exact List.mem_cons_self k t)

theorem filter_buckets_eq {i : Nat} (sfdus : List SFDU) :
    ∀ {ks : List Nat}, ks.Nodup → i ∈ ks →
    (ks.flatMap (fun j => sfdus.filter (fun s => s.pri_chdo.format_code == j))).filter
        (fun s => s.pri_chdo.format_code == i)
      = sfdus.filter (fun s => s.pri_chdo.format_code == i) := by
  intro ks
  induction ks with
  | nil => intro _ h; cases h
  | cons k t ih =>
    intro hnd hmem
    rw [List.nodup_cons] at hnd
    rw [List.flatMap_cons, List.filter_append]
    rcases List.mem_cons.mp hmem with rfl | ht
    · rw [filter_buckets_nil sfdus hnd.1, List.append_nil, List.filter_filter]
      apply List.filter_congr
      intro a _
      cases h : (a.pri_chdo.format_code == i) <;> simp [h]
    · have hik : i ≠ k := fun h => hnd.1 (h ▸ ht)
      rw [ih hnd.2 ht, List.filter_filter]
      have : List.filter
          (fun a => (a.pri_chdo.format_code == i) && (a.pri_chdo.format_code == k)) sfdus
          = [] := by
        apply List.filter_eq_nil_iff.mpr
        intro a _ hcontra
        have h1 : a.pri_chdo.format_code = i := by simpa using (Bool.and_elim_left hcontra)
        have h2 : a.pri_chdo.format_code = k := by simpa using (Bool.and_elim_right hcontra)
        exact hik (by rw [← h1, h2])
      rw [this, List.nil_append]

theorem buckets_drop {x : SFDU} (t : List SFDU) :
    ∀ {ks : List Nat}, x.pri_chdo.format_code ∉ ks →
    ks.flatMap (fun i => (x :: t).filter (fun s => s.pri_chdo.format_code == i))
      = ks.flatMap (fun i => t.filter (fun s => s.pri_chdo.format_code == i)) := by
  intro ks
  induction ks with
  | nil => intro _; rfl
  | cons k ks2 ih =>
    intro hnot
    rw [List.flatMap_cons, List.flatMap_cons, ih (fun h => hnot (List.mem_cons_of_mem k h))]
    have hxk : (x.pri_chdo.format_code == k) = false := by
      simp only [beq_eq_false_iff_ne, ne_eq]
      exact fun h => hnot (h ▸ List.mem_cons_self k ks2)
    rw [List.filter_cons, if_neg (by simp [hxk])]

theorem buckets_cons (x : SFDU) (t : List SFDU) :
    ∀ {ks : List Nat}, ks.Nodup →
    (ks.flatMap (fun i => (x :: t).filter (fun s => s.pri_chdo.format_code == i))).Perm
      ((if x.pri_chdo.format_code ∈ ks then [x] else [])
        ++ ks.flatMap (fun i => t.filter (fun s => s.pri_chdo.format_code == i))) := by
  intro ks
  induction ks with
  | nil => intro _; simp
  | cons k ks2 ih =>
    intro hnd
    rw [List.nodup_cons] at hnd
    rw [List.flatMap_cons, List.flatMap_cons, List.filter_cons]
    by_cases hxk : x.pri_chdo.format_code = k
    · rw [if_pos (by simp [hxk]), buckets_drop t (hxk ▸ hnd.1),
        if_pos (List.mem_cons.mpr (Or.inl hxk))]
      exact List.Perm.refl _
    · rw [if_neg (by simp [hxk])]
      have step := (ih hnd.2).append_left
        (List.filter (fun s => s.pri_chdo.format_code == k) t)
      by_cases hxks : x.pri_chdo.format_code ∈ ks2
      · rw [if_pos hxks] at step
        rw [if_pos (List.mem_cons.mpr (Or.inr hxks))]
        refine step.trans ?_
        exact List.perm_middle
      · rw [if_neg hxks] at step
        rw [if_neg (fun h => (List.mem_cons.mp h).elim hxk (fun h2 => hxks h2))]
        simpa using step

theorem regroup_perm (sfdus : List SFDU) :
    (regroup sfdus).Perm (sfdus.filter (fun s => s.pri_chdo.format_code < 18)) := by
  induction sfdus with
  | nil =>
    have : regroup [] = [] := by simp [regroup]
    rw [this]
    exact List.Perm.refl _
  | cons x t ih =>
    have h1 := buckets_cons x t (List.nodup_range 18)
    rw [List.filter_cons]
    by_cases hx : x.pri_chdo.format_code < 18
    · rw [if_pos (by simp [hx])]
      unfold regroup at h1 ⊢
      rw [if_pos (List.mem_range.mpr hx)] at h1
      exact h1.trans ((ih.cons x).trans (List.Perm.refl _))
    · rw [if_neg (by simp [hx])]
      unfold regroup at h1 ⊢
      rw [if_neg (fun h => hx (List.mem_range.mp h))] at h1
      simpa using h1.trans ih

/-- C5: the Regroup transform stable-partitions the stream into the 18
format-code buckets in ascending order: the output's format-code sequence
is non-decreasing, each format code's records keep their input order (so
per-code counts are preserved), the output bytes are the surviving
records' original ranges, and their total length is the sum of the
surviving records' lengths — the full input length when every record has
a known format code. -/
theorem regroup_correct (sfdus : List SFDU) :
    List.Sorted (· ≤ ·) ((regroup sfdus).map (fun s => s.pri_chdo.format_code)) ∧
    (∀ i, i < 18 →
      (regroup sfdus).filter (fun s => s.pri_chdo.format_code == i)
        = sfdus.filter (fun s => s.pri_chdo.format_code == i)) ∧
    (regroupOutput sfdus).length
      = ((sfdus.filter (fun s => s.pri_chdo.format_code < 18)).map
          (fun s => s.binarydata.length)).sum ∧
    ((∀ s ∈ sfdus, s.pri_chdo.format_code < 18) →
      (regroupOutput sfdus).length = (sfdus.map (fun s => s.binarydata.length)).sum) := by
  have hlen : (regroupOutput sfdus).length
      = ((sfdus.filter (fun s => s.pri_chdo.format_code < 18)).map
          (fun s => s.binarydata.length)).sum := by
    rw [regroupOutput, List.length_flatMap]
    refine List.Perm.sum_eq ?_
    have := (regroup_perm sfdus).map (fun s => s.binarydata.length)
    simpa [Function.comp] using this
  refine ⟨?_, ?_, hlen, ?_⟩
  · have := regroup_fc_sorted_aux sfdus 18 0
    rw [← List.range_eq_range'] at this
    exact this
  · intro i hi
    exact filter_buckets_eq sfdus (List.nodup_range 18) (List.mem_range.mpr hi)
  · intro hall
    rw [hlen, List.filter_eq_self.mpr (fun a ha => by simpa using hall a ha)]

/-- The 3-record demo stream of the spec: format codes `[1, 9, 1]`. -/
def demoStream : List SFDU :=
  [{ label := ⟨"C124"⟩, pri_chdo := ⟨1⟩, binarydata := [1, 2] },
   { label := ⟨"C124"⟩, pri_chdo := ⟨9⟩, binarydata := [3] },
   { label := ⟨"C124"⟩, pri_chdo := ⟨1⟩, binarydata := [4, 5, 6] }]

/-- Witness for C5 on the `[1, 9, 1]` demo stream: the code-1 bucket of
the output keeps the input order of the two code-1 records, and the
output length is the full input length. -/
theorem regroup_correct_witness :
    (regroup demoStream).filter (fun s => s.pri_chdo.format_code == 1)
      = demoStream.filter (fun s => s.pri_chdo.format_code == 1) ∧
    (regroupOutput demoStream).length
      = (demoStream.map (fun s => s.binarydata.length)).sum :=
  ⟨(regroup_correct demoStream).2.1 1 (by decide),
   (regroup_correct demoStream).2.2.2 (by decide)⟩

/-- `util.bands`: band code → band label (a lookup of a code outside the
table is a Python `KeyError`; the claims here never exercise it, so the
missing-key case is `none`). -/
def bands : Nat → Option String
  | 0 => some "Unknown"
  | 1 => some "S"
  | 2 => some "X"
  | 3 => some "Ka"
  | 4 => some "Ku"
  | 5 => some "L"
  | _ => none

/-- One `trk234_purify` test of the form
`args.P is not None and hasattr(s.sec_chdo, F)`: the record survives the
test unless the argument is given, the field is present in the active
secondary variant, and the values differ. `hasattr` on an absent
secondary header (or a variant without the field) is `False`, modelled by
the `Option`-valued field. -/
def matchOptNat (arg : Option Nat) (field : Option Nat) : Bool :=
  match arg, field with
  | some v, some w => v == w
  | _, _ => true

/-- The band variant of the test compares the argument string with
`trk234.bands[field]`. -/
def matchOptBand (arg : Option String) (field : Option Nat) : Bool :=
  match arg, field with
  | some v, some w => v == (bands w).getD ""
  | _, _ => true

/-- The keep-decision of the `trk234_purify` main loop (lines 96-139),
one conjunct per `continue` in source order: known data-description code,
known format code, then the five user predicates. -/
def purifyKeep (fcArg ulDssArg dlDssArg : Option Nat)
    (ulBandArg dlBandArg : Option String) (s : SFDU) : Bool :=
  ddKeys.contains s.label.data_description_id
    && fcKeys.contains s.pri_chdo.format_code
    && (match fcArg with
        | some v => v == s.pri_chdo.format_code
        | none => true)
    && matchOptNat ulDssArg (s.sec_chdo.bind SecCHDO.ul_dss_id)
    && matchOptBand ulBandArg (s.sec_chdo.bind SecCHDO.ul_band)
    && matchOptNat dlDssArg (s.sec_chdo.bind SecCHDO.dl_dss_id)
    && matchOptBand dlBandArg (s.sec_chdo.bind SecCHDO.dl_band)

/-- The bytes `trk234_purify` writes: each surviving record's original
byte range, in input order. -/
def purify (fcArg ulDssArg dlDssArg : Option Nat)
    (ulBandArg dlBandArg : Option String) (sfdus : List SFDU) : Bytes :=
  sfdus.flatMap (fun s =>
    if purifyKeep fcArg ulDssArg dlDssArg ulBandArg dlBandArg s then s.binarydata else [])

/-- A record with an unrecognized data-description code and a non-empty
byte range. -/
def invalidRec : SFDU := { label := ⟨"XXXX"⟩, pri_chdo := ⟨1⟩, binarydata := [42] }

/-- C6 (counterexample): with all-permissive predicates, purify on the
1-record stream whose record carries the unknown data-description code
`XXXX` writes nothing, not the concatenation of every record's bytes. -/
theorem purify_allpermissive_not_identity :
    purify none none none none none [invalidRec] = [] ∧
    [invalidRec].flatMap (fun s => s.binarydata) = [42] :=
  ⟨rfl, rfl⟩

/-- C6 (amended): with all-permissive predicates, purify writes
byte-for-byte the concatenation, in input order, of the original ranges
of exactly the records whose data-description code is one of the 5 known
codes and whose format code is one of the 18 known codes; records failing
those checks are dropped even with no caller-supplied constraint. -/
theorem purify_allpermissive_concat (sfdus : List SFDU) :
    purify none none none none none sfdus
      = (sfdus.filter (fun s => ddKeys.contains s.label.data_description_id
          && fcKeys.contains s.pri_chdo.format_code)).flatMap (fun s => s.binarydata) := by
  induction sfdus with
  | nil => rfl
  | cons a t ih =>
    have hkeep : purifyKeep none none none none none a
        = (ddKeys.contains a.label.data_description_id
            && fcKeys.contains a.pri_chdo.format_code) := by
      simp [purifyKeep, matchOptNat, matchOptBand]
    cases h : (ddKeys.contains a.label.data_description_id
        && fcKeys.contains a.pri_chdo.format_code) with
    | false =>
      have e1 : (if purifyKeep none none none none none a = true
          then a.binarydata else []) = [] := by
        rw [hkeep, h]
        rfl
      rw [purify, List.flatMap_cons, e1,
        List.filter_cons_of_neg (fun hc => by rw [h] at hc; cases hc),
        List.nil_append]
      simpa [purify] using ih
    | true =>
      have e1 : (if purifyKeep none none none none none a = true
          then a.binarydata else []) = a.binarydata := by
        rw [hkeep, h]
        rfl
      rw [purify, List.flatMap_cons, e1,
        @List.filter_cons_of_pos _ (fun s => ddKeys.contains s.label.data_description_id
          && fcKeys.contains s.pri_chdo.format_code) a t h,
        List.flatMap_cons]
      exact congrArg (fun l => a.binarydata ++ l) (by simpa [purify] using ih)

/-- `trk234_regroup --validate` (lines 119-144): the block re-reads
`args.Input` for the comparison (`f2 = trk234.Reader( args.Input )`,
although the preceding comment says "Open the output file for reading"),
so both count vectors are computed over the input stream. The model takes
the records of the output file the transform just wrote and, like the
code, never consults them; it returns the two warning flags
(total-count mismatch, per-type-count mismatch). -/
def regroupValidate (inputSfdus _outputSfdus : List SFDU) : Bool × Bool :=
  let sfdus2 := inputSfdus
  (inputSfdus.length != sfdus2.length, types inputSfdus != types sfdus2)

/-- C7 (code behavior at the failing input): the validation step warns on
no input at all — both count vectors come from the input file, so the
comparison is input-against-input and is independent of the output file
it was meant to check. -/
theorem regroup_validate_never_warns (inp out : List SFDU) :
    regroupValidate inp out = (false, false) ∧
    (∀ out2, regroupValidate inp out = regroupValidate inp out2) := by
  constructor
  · simp [regroupValidate]
  · intro out2
    rfl

/-- The 4 ASCII characters at bytes 8..12 of a record: the label's
data-description code. The `SFDULabel` layout lives in the absent
`components` module; the offset is the one the in-`src` fast path reads
(Info.py line 250). `none` when the record is shorter than 12 bytes
(Python `struct.unpack` raises there). -/
def readDdid (data : Bytes) : Option String :=
  let s := (data.drop 8).take 4
  if s.length = 4 then some (String.mk (s.map Char.ofNat)) else none

/-- The byte at offset 31 of a record: the primary header's format code
(`PrimaryCHDO` layout is in the absent `components` module; Reader.py
line 149 reads the same byte). -/
def readFormatCode (data : Bytes) : Option Nat :=
  let s := (data.drop 31).take 1
  if s.length = 1 then some (bytesToNatBE s) else none

/-- Modelled from the spec: the five secondary-variant decoders
(`components.UplinkCHDO` … `FilteredCHDO`) are not under `src`. The spec
(§4.3) fixes only that each is a fixed-offset layout over the record's
bytes; the fields whose offsets the in-`src` fast path names are read
from them (station id 66, band 67, mode 69), the remaining fields have no
offset named anywhere under `src` and no claim settled here depends on
their values. -/
def decodeSec (data : Bytes) : SecCHDO :=
  { year := 0, doy := 0, sec := 0, scft_id := 0,
    prdx_mode := (data.drop 69).headD 0, ul_prdx_stn := 0, cnt_time := 0,
    ul_dss_id := some ((data.drop 66).headD 0),
    ul_band := some ((data.drop 67).headD 0),
    dl_dss_id := some ((data.drop 66).headD 0),
    dl_band := some ((data.drop 67).headD 0) }

/-- The diagnostic of SFDU.py line 177: unknown secondary CHDO type. -/
def unknownSecWarn (number : Nat) (ddid : String) : String :=
  "SFDU " ++ toString number ++ ": Warning: Unknown secondary CHDO type "
    ++ ddid ++ ". Skipping..."

/-- The diagnostic of SFDU.py line 225: unknown tracking CHDO type. -/
def unknownTrkWarn (number : Nat) (fc : Nat) : String :=
  "SFDU " ++ toString number ++ ": Warning: Unknown tracking CHDO type "
    ++ toString fc ++ ". Skipping..."

/-- `SFDU.decode` with every stage flag true (the `Reader.decode`
default): decode label and primary header, dispatch the secondary variant
on the data-description code — an unknown code emits the diagnostic,
leaves the record not-decoded with its header fields intact and skips the
remaining stages — then dispatch the tracking variant on the format code
with the same skip-and-warn policy; only a record passing both dispatches
is marked decoded. Besides the record, the emitted diagnostics are
returned. -/
def SFDU.decode (number : Nat) (data : Bytes) : Except String (SFDU × List String) :=
  match readDdid data with
  | none => .error "struct.error: SFDU label unpack past end of record"
  | some ddid =>
    match readFormatCode data with
    | none => .error "struct.error: primary CHDO unpack past end of record"
    | some fc =>
      if ddKeys.contains ddid then
        if fc ≤ 17 then
          .ok ({ number := number, label := ⟨ddid⟩, pri_chdo := ⟨fc⟩,
                 sec_chdo := some (decodeSec data), trk_chdo := some fc,
                 is_decoded := true, binarydata := data }, [])
        else
          .ok ({ number := number, label := ⟨ddid⟩, pri_chdo := ⟨fc⟩,
                 sec_chdo := some (decodeSec data), trk_chdo := none,
                 is_decoded := false, binarydata := data }, [unknownTrkWarn number fc])
      else
        .ok ({ number := number, label := ⟨ddid⟩, pri_chdo := ⟨fc⟩,
               sec_chdo := none, trk_chdo := none,
               is_decoded := false, binarydata := data }, [unknownSecWarn number ddid])

/-- The record `SFDU.decode` leaves behind for an unknown
data-description code: header fields decoded, remaining stages skipped. -/
def badRecordOf (n : Nat) (code : String) (fc : Nat) (data : Bytes) : SFDU :=
  { number := n, label := ⟨code⟩, pri_chdo := ⟨fc⟩, sec_chdo := none,
    trk_chdo := none, is_decoded := false, binarydata := data }

/-- The record `SFDU.decode` leaves behind for an unknown format code:
label, primary and secondary stages decoded, tracking stage skipped. -/
def badTrkRecordOf (n : Nat) (code : String) (fc : Nat) (data : Bytes) : SFDU :=
  { number := n, label := ⟨code⟩, pri_chdo := ⟨fc⟩,
    sec_chdo := some (decodeSec data), trk_chdo := none,
    is_decoded := false, binarydata := data }

/-- The loop of `Reader.decode`: records numbered from `i` in order, with
the emitted diagnostics concatenated. -/
def readerDecodeGo (i : Nat) : List Bytes → Except String (List SFDU × List String)
  | [] => .ok ([], [])
  | f :: rest =>
    match SFDU.decode i f with
    | .error e => .error e
    | .ok (s, w) =>
      match readerDecodeGo (i + 1) rest with
      | .error e => .error e
      | .ok (ss, ws) => .ok (s :: ss, w ++ ws)

/-- `Reader.decode` over the frames of a stream. -/
def readerDecode (frames : List Bytes) : Except String (List SFDU × List String) :=
  readerDecodeGo 0 frames

/-- A frame whose label and primary reads succeed with a known
data-description code and a known format code. -/
def goodFrame (data : Bytes) : Bool :=
  match readDdid data, readFormatCode data with
  | some ddid, some fc => ddKeys.contains ddid && fc ≤ 17
  | _, _ => false

/-- A frame whose label and primary reads succeed but whose
data-description code is not one of the 5 known codes. -/
def badSecFrame (data : Bytes) : Bool :=
  match readDdid data, readFormatCode data with
  | some ddid, some _ => !(ddKeys.contains ddid)
  | _, _ => false

/-- A frame whose label and primary reads succeed with a known
data-description code but whose format code is outside 0..17. -/
def badTrkFrame (data : Bytes) : Bool :=
  match readDdid data, readFormatCode data with
  | some ddid, some fc => ddKeys.contains ddid && decide (17 < fc)
  | _, _ => false

theorem readerDecodeGo_allgood :
    ∀ (frames : List Bytes) (i : Nat), (∀ f ∈ frames, goodFrame f = true) →
    ∃ ss, readerDecodeGo i frames = .ok (ss, []) ∧ ss.length = frames.length ∧
      ∀ s ∈ ss, s.is_decoded = true := by
  intro frames
  induction frames with
  | nil => exact fun i _ => ⟨[], rfl, rfl, fun s h => absurd h (List.not_mem_nil s)⟩
  | cons f rest ih =>
    intro i hall
    have hf : goodFrame f = true := hall f (List.mem_cons_self f rest)
    rw [goodFrame] at hf
    obtain ⟨ss2, h2, hlen2, hdec2⟩ :=
      ih (i + 1) (fun g hg => hall g (List.mem_cons_of_mem f hg))
    cases hd : readDdid f with
    | none => rw [hd] at hf; cases hf
    | some ddid =>
      cases hfc : readFormatCode f with
      | none => rw [hd, hfc] at hf; cases hf
      | some fc =>
        rw [hd, hfc] at hf
        dsimp only at hf
        have hcontains : ddKeys.contains ddid = true := Bool.and_elim_left hf
        have hle : fc ≤ 17 := by
          have := Bool.and_elim_right hf
          simpa using this
        have hdecf : SFDU.decode i f
            = .ok ({ number := i, label := ⟨ddid⟩, pri_chdo := ⟨fc⟩,
                     sec_chdo := some (decodeSec f), trk_chdo := some fc,
                     is_decoded := true, binarydata := f }, []) := by
          rw [SFDU.decode, hd, hfc]
          dsimp only
          rw [if_pos hcontains, if_pos hle]
        refine ⟨{ number := i, label := ⟨ddid⟩, pri_chdo := ⟨fc⟩,
                  sec_chdo := some (decodeSec f), trk_chdo := some fc,
                  is_decoded := true, binarydata := f } :: ss2, ?_, ?_, ?_⟩
        · rw [readerDecodeGo, hdecf, h2]
          rfl
        · simpa using hlen2
        · intro s hs
          rcases List.mem_cons.mp hs with rfl | hs2
          · rfl
          · exact hdec2 s hs2

theorem readerDecodeGo_append_good :
    ∀ (A : List Bytes) (i : Nat) (rest : List Bytes),
      (∀ f ∈ A, goodFrame f = true) →
      ∀ ssr wsr, readerDecodeGo (i + A.length) rest = .ok (ssr, wsr) →
      ∃ ssA, readerDecodeGo i (A ++ rest) = .ok (ssA ++ ssr, wsr) ∧
        ssA.length = A.length ∧ (∀ s ∈ ssA, s.is_decoded = true) := by
  intro A
  induction A with
  | nil =>
    intro i rest _ ssr wsr hrest
    exact ⟨[], by simpa using hrest, rfl, fun s h => absurd h (List.not_mem_nil s)⟩
  | cons f A2 ih =>
    intro i rest hall ssr wsr hrest
    have hf : goodFrame f = true := hall f (List.mem_cons_self f A2)
    rw [goodFrame] at hf
    have hrest2 : readerDecodeGo ((i + 1) + A2.length) rest = .ok (ssr, wsr) := by
      rw [show (i + 1) + A2.length = i + (f :: A2).length by simp; omega]
      exact hrest
    obtain ⟨ssA2, h2, hlen2, hdec2⟩ :=
      ih (i + 1) rest (fun g hg => hall g (List.mem_cons_of_mem f hg)) ssr wsr hrest2
    cases hd : readDdid f with
    | none => rw [hd] at hf; cases hf
    | some ddid =>
      cases hfc : readFormatCode f with
      | none => rw [hd, hfc] at hf; cases hf
      | some fc =>
        rw [hd, hfc] at hf
        dsimp only at hf
        have hcontains : ddKeys.contains ddid = true := Bool.and_elim_left hf
        have hle : fc ≤ 17 := by
          have := Bool.and_elim_right hf
          simpa using this
        have hdecf : SFDU.decode i f
            = .ok ({ number := i, label := ⟨ddid⟩, pri_chdo := ⟨fc⟩,
                     sec_chdo := some (decodeSec f), trk_chdo := some fc,
                     is_decoded := true, binarydata := f }, []) := by
          rw [SFDU.decode, hd, hfc]
          dsimp only
          rw [if_pos hcontains, if_pos hle]
        refine ⟨{ number := i, label := ⟨ddid⟩, pri_chdo := ⟨fc⟩,
                  sec_chdo := some (decodeSec f), trk_chdo := some fc,
                  is_decoded := true, binarydata := f } :: ssA2, ?_, ?_, ?_⟩
        · rw [List.cons_append, readerDecodeGo, hdecf, h2]
          rfl
        · simpa using hlen2
        · intro s hs
          rcases List.mem_cons.mp hs with rfl | hs2
          · rfl
          · exact hdec2 s hs2

/-- The shared shape of both skip-and-warn cases: a stream whose frames
all decode cleanly except one, whose decode succeeds (no raise) with a
single diagnostic and a not-decoded record, yields one record per frame,
the one diagnostic, and the offending record at its input position. -/
theorem readerDecode_one_bad {bad : Bytes} {badS : SFDU} {warn : String}
    (A B : List Bytes)
    (hA : ∀ f ∈ A, goodFrame f = true) (hB : ∀ f ∈ B, goodFrame f = true)
    (hdecbad : SFDU.decode A.length bad = .ok (badS, [warn]))
    (hnotdec : badS.is_decoded = false) :
    ∃ sfdus, readerDecode (A ++ bad :: B) = .ok (sfdus, [warn]) ∧
      sfdus.length = A.length + B.length + 1 ∧
      sfdus.countP (fun s => s.is_decoded) = A.length + B.length ∧
      sfdus[A.length]? = some badS := by
  obtain ⟨ssB, hgoB, hlenB, hdecB⟩ := readerDecodeGo_allgood B (A.length + 1) hB
  have hmid : readerDecodeGo A.length (bad :: B) = .ok (badS :: ssB, [warn]) := by
    rw [readerDecodeGo, hdecbad, hgoB]
    rfl
  obtain ⟨ssA, hgo, hlenA, hdecA⟩ :=
    readerDecodeGo_append_good A 0 (bad :: B) hA _ _ (by simpa using hmid)
  refine ⟨ssA ++ badS :: ssB, hgo, ?_, ?_, ?_⟩
  · simp only [List.length_append, List.length_cons, hlenA, hlenB]
    omega
  · have hA1 : ssA.countP (fun s => s.is_decoded) = ssA.length :=
      List.countP_eq_length.mpr (fun a ha => by simpa using hdecA a ha)
    have hB1 : ssB.countP (fun s => s.is_decoded) = ssB.length :=
      List.countP_eq_length.mpr (fun a ha => by simpa using hdecB a ha)
    have hc : List.countP (fun s : SFDU => s.is_decoded) (badS :: ssB)
        = List.countP (fun s : SFDU => s.is_decoded) ssB := by
      apply List.countP_cons_of_neg
      intro h
      rw [hnotdec] at h
      cases h
    rw [List.countP_append, hc, hA1, hB1, hlenA, hlenB]
  · rw [List.getElem?_append_right (by omega), hlenA, Nat.sub_self,
      List.getElem?_cons_zero]

/-- C4: a stream of frames in which exactly one frame carries an
unrecognized code — whether an unknown 4-character data-description code
or a format code outside 0..17 — decodes without a stream-terminating
error into one record per frame; the offending record is marked
not-decoded with its already-decoded fields intact (label and format
code, and for an unknown format code also the decoded secondary header)
and its remaining stages skipped, every other record is decoded, and the
single emitted diagnostic names the record's sequence index and the
offending code. -/
theorem decode_unknown_code_resilient :
    (∀ (A B : List Bytes) (bad : Bytes),
      (∀ f ∈ A, goodFrame f = true) → (∀ f ∈ B, goodFrame f = true) →
      badSecFrame bad = true →
      ∃ sfdus code,
        readDdid bad = some code ∧
        readerDecode (A ++ bad :: B) = .ok (sfdus, [unknownSecWarn A.length code]) ∧
        sfdus.length = A.length + B.length + 1 ∧
        sfdus.countP (fun s => s.is_decoded) = A.length + B.length ∧
        (∃ s, sfdus[A.length]? = some s ∧ s.label.data_description_id = code ∧
          s.is_decoded = false ∧ s.sec_chdo = none ∧ s.number = A.length)) ∧
    (∀ (A B : List Bytes) (bad : Bytes),
      (∀ f ∈ A, goodFrame f = true) → (∀ f ∈ B, goodFrame f = true) →
      badTrkFrame bad = true →
      ∃ sfdus code fc,
        readDdid bad = some code ∧ readFormatCode bad = some fc ∧ 17 < fc ∧
        readerDecode (A ++ bad :: B) = .ok (sfdus, [unknownTrkWarn A.length fc]) ∧
        sfdus.length = A.length + B.length + 1 ∧
        sfdus.countP (fun s => s.is_decoded) = A.length + B.length ∧
        (∃ s, sfdus[A.length]? = some s ∧ s.label.data_description_id = code ∧
          s.pri_chdo.format_code = fc ∧ s.is_decoded = false ∧
          s.sec_chdo = some (decodeSec bad) ∧ s.trk_chdo = none ∧
          s.number = A.length)) := by
  constructor
  · intro A B bad hA hB hbad
    rw [badSecFrame] at hbad
    cases hd : readDdid bad with
    | none => rw [hd] at hbad; cases hbad
    | some code =>
      cases hfc : readFormatCode bad with
      | none => rw [hd, hfc] at hbad; cases hbad
      | some fc =>
        rw [hd, hfc] at hbad
        dsimp only at hbad
        have hnotdd : ddKeys.contains code = false := by
          cases h : ddKeys.contains code
          · rfl
          · rw [h] at hbad; cases hbad
        have hdecbad : SFDU.decode A.length bad
            = .ok (badRecordOf A.length code fc bad, [unknownSecWarn A.length code]) := by
          rw [SFDU.decode, hd, hfc]
          dsimp only
          rw [if_neg (by rw [hnotdd]; exact fun h => by cases h)]
          rfl
        obtain ⟨sfdus, hgo, hlen, hcount, hget⟩ :=
          readerDecode_one_bad A B hA hB hdecbad rfl
        exact ⟨sfdus, code, rfl, hgo, hlen, hcount,
          badRecordOf A.length code fc bad, hget, rfl, rfl, rfl, rfl⟩
  · intro A B bad hA hB hbad
    rw [badTrkFrame] at hbad
    cases hd : readDdid bad with
    | none => rw [hd] at hbad; cases hbad
    | some code =>
      cases hfc : readFormatCode bad with
      | none => rw [hd, hfc] at hbad; cases hbad
      | some fc =>
        rw [hd, hfc] at hbad
        dsimp only at hbad
        have hdd : ddKeys.contains code = true := Bool.and_elim_left hbad
        have hgt : 17 < fc := by
          have := Bool.and_elim_right hbad
          simpa using this
        have hdecbad : SFDU.decode A.length bad
            = .ok (badTrkRecordOf A.length code fc bad, [unknownTrkWarn A.length fc]) := by
          rw [SFDU.decode, hd, hfc]
          dsimp only
          rw [if_pos hdd, if_neg (by omega)]
          rfl
        obtain ⟨sfdus, hgo, hlen, hcount, hget⟩ :=
          readerDecode_one_bad A B hA hB hdecbad rfl
        exact ⟨sfdus, code, fc, rfl, rfl, hgt, hgo, hlen, hcount,
          badTrkRecordOf A.length code fc bad, hget, rfl, rfl, rfl, rfl, rfl, rfl⟩

/-- A well-formed frame: data-description code `C124` at bytes 8..12 and
format code 1 at byte 31. -/
def goodFrameEx : Bytes :=
  List.replicate 8 0 ++ [67, 49, 50, 52] ++ List.replicate 19 0 ++ [1]

/-- A frame with the unknown data-description code `XXXX`. -/
def badFrameEx : Bytes :=
  List.replicate 8 0 ++ [88, 88, 88, 88] ++ List.replicate 19 0 ++ [1]

/-- A frame with the known code `C124` but the unknown format code 18. -/
def badTrkFrameEx : Bytes :=
  List.replicate 8 0 ++ [67, 49, 50, 52] ++ List.replicate 19 0 ++ [18]

/-- Witness for C4, both cases: a 3-frame stream whose middle frame
carries the unknown data-description code `XXXX` (resp. the unknown
format code 18) yields 3 records, 2 decoded, and the one diagnostic
names record index 1 and the offending code. -/
theorem decode_unknown_code_resilient_witness :
    (∃ sfdus code,
      readDdid badFrameEx = some code ∧
      readerDecode ([goodFrameEx] ++ badFrameEx :: [goodFrameEx])
        = .ok (sfdus, [unknownSecWarn [goodFrameEx].length code]) ∧
      sfdus.length = [goodFrameEx].length + [goodFrameEx].length + 1 ∧
      sfdus.countP (fun s => s.is_decoded) = [goodFrameEx].length + [goodFrameEx].length ∧
      (∃ s, sfdus[[goodFrameEx].length]? = some s ∧ s.label.data_description_id = code ∧
        s.is_decoded = false ∧ s.sec_chdo = none ∧ s.number = [goodFrameEx].length)) ∧
    (∃ sfdus code fc,
      readDdid badTrkFrameEx = some code ∧ readFormatCode badTrkFrameEx = some fc ∧
      17 < fc ∧
      readerDecode ([goodFrameEx] ++ badTrkFrameEx :: [goodFrameEx])
        = .ok (sfdus, [unknownTrkWarn [goodFrameEx].length fc]) ∧
      sfdus.length = [goodFrameEx].length + [goodFrameEx].length + 1 ∧
      sfdus.countP (fun s => s.is_decoded) = [goodFrameEx].length + [goodFrameEx].length ∧
      (∃ s, sfdus[[goodFrameEx].length]? = some s ∧ s.label.data_description_id = code ∧
        s.pri_chdo.format_code = fc ∧ s.is_decoded = false ∧
        s.sec_chdo = some (decodeSec badTrkFrameEx) ∧ s.trk_chdo = none ∧
        s.number = [goodFrameEx].length)) := by
  constructor
  · refine decode_unknown_code_resilient.1 [goodFrameEx] [goodFrameEx] badFrameEx ?_ ?_ ?_
    · intro f hf
      rw [List.mem_singleton.mp hf]
      decide
    · intro f hf
      rw [List.mem_singleton.mp hf]
      decide
    · decide
  · refine decode_unknown_code_resilient.2 [goodFrameEx] [goodFrameEx] badTrkFrameEx ?_ ?_ ?_
    · intro f hf
      rw [List.mem_singleton.mp hf]
      decide
    · intro f hf
      rw [List.mem_singleton.mp hf]
      decide
    · decide

end Trk234
